import Mathlib

/-!
# SpazzApp cleaning-turn scheduler: a shallow embedding

This file embeds the scheduling core of the SpazzApp repository
(`src/core/scheduler.py`, `src/core/models.py`, `src/utils/helpers.py`)
into Lean 4 and proves properties about it.

Modelling conventions:

* Dates are proleptic-Gregorian ordinals (`Nat`), exactly Python's
  `datetime.date.toordinal()`: ordinal 1 is 0001-01-01, a Monday.
  Python's `date.weekday()` (Monday = 0) becomes `pyWeekday`.
* Python `dict`s that the code mutates are insertion-ordered association
  lists; `dictSet` has Python's update-in-place-or-append semantics.
* Python's stable `list.sort(key=..., reverse=True)` is `sortScoreDesc`
  (stable insertion sort, descending), and the stable ascending sort used
  by `DataFrame.sort_values` is `sortAscBy`.
* The source passes around mutable `Person` objects that alias the ones
  held by `SchedulingState`; the embedding keys every person by their
  (unique) name and routes all reads and writes through the state, which
  is exactly the sharing the Python object graph realises.
* All score arithmetic in the source is on Python ints (the `0.0`
  initialisers never meet a non-integer addend), so scores are `Int`.
-/

namespace SpazzApp

/-! ## Association-list dictionaries (Python `dict` with insertion order) -/

/-- Python `d[k] = v`: update the value in place if the key is present,
otherwise append the binding at the end. -/
def dictSet {α β : Type} [DecidableEq α] (k : α) (v : β) : List (α × β) → List (α × β)
  | [] => [(k, v)]
  | (a, b) :: rest => if a = k then (k, v) :: rest else (a, b) :: dictSet k v rest

/-- Python `d.get(k)`. -/
def dictGet? {α β : Type} [DecidableEq α] (k : α) : List (α × β) → Option β
  | [] => none
  | (a, b) :: rest => if a = k then some b else dictGet? k rest

/-- Python `d.get(k, default)`. -/
def dictGetD {α β : Type} [DecidableEq α] (k : α) (l : List (α × β)) (dflt : β) : β :=
  (dictGet? k l).getD dflt

/-! ## Stable sorting, as done by Python `list.sort` -/

/-- Insert `x` into a list already sorted by `key` in descending order,
before the first element whose key does not exceed `key x`.  Used by
`sortScoreDesc`; placing `x` before equal keys keeps the sort stable,
because `x` always comes from an earlier position of the original list. -/
def insertScoreDesc {α : Type} (key : α → Int) (x : α) : List α → List α
  | [] => [x]
  | y :: ys => if key y ≤ key x then x :: y :: ys else y :: insertScoreDesc key x ys

/-- Python `l.sort(key=key, reverse=True)`: stable, descending by `key`. -/
def sortScoreDesc {α : Type} (key : α → Int) : List α → List α
  | [] => []
  | x :: xs => insertScoreDesc key x (sortScoreDesc key xs)

/-- Insert for the stable ascending sort `sortAscBy`. -/
def insertAscBy {α : Type} (le : α → α → Bool) (x : α) : List α → List α
  | [] => [x]
  | y :: ys => if le x y then x :: y :: ys else y :: insertAscBy le x ys

/-- Stable ascending sort by a boolean "less or equal" test (Python
`sorted` / pandas `sort_values`). -/
def sortAscBy {α : Type} (le : α → α → Bool) : List α → List α
  | [] => []
  | x :: xs => insertAscBy le x (sortAscBy le xs)

/-- `min` of a nonempty Python list (0 for an empty one; the source only
takes minima of nonempty lists). -/
def minList : List Nat → Nat
  | [] => 0
  | x :: xs => xs.foldl Nat.min x

/-- `max` of a nonempty Python list (0 for an empty one). -/
def maxList : List Nat → Nat
  | [] => 0
  | x :: xs => xs.foldl Nat.max x

/-! ## The calendar (`src/utils/helpers.py`, `get_month_weeks`)

Python's `datetime` is proleptic Gregorian; we re-create just enough of it:
ordinal day numbers, month lengths and weekdays. -/

/-- Gregorian leap-year rule (as in Python's `calendar.isleap`). -/
def isLeapYear (y : Nat) : Bool :=
  (y % 4 == 0 && y % 100 != 0) || (y % 400 == 0)

/-- Length of a month (`calendar.monthrange(year, month)[1]`). -/
def daysInMonth (y m : Nat) : Nat :=
  if m = 2 then (if isLeapYear y then 29 else 28)
  else if m = 4 ∨ m = 6 ∨ m = 9 ∨ m = 11 then 30
  else 31

/-- Number of days strictly before January 1 of year `y` (year 1 based),
matching CPython's `_days_before_year`. -/
def daysBeforeYear (y : Nat) : Nat :=
  365 * (y - 1) + (y - 1) / 4 - (y - 1) / 100 + (y - 1) / 400

/-- Number of days of year `y` strictly before month `m`. -/
def daysBeforeMonth (y m : Nat) : Nat :=
  (List.range (m - 1)).foldl (fun acc i => acc + daysInMonth y (i + 1)) 0

/-- `datetime.date(y, m, d).toordinal()`. -/
def toOrdinal (y m d : Nat) : Nat :=
  daysBeforeYear y + daysBeforeMonth y m + d

/-- `date.weekday()`: Monday is 0, Sunday is 6.  Ordinal 1 is a Monday. -/
def pyWeekday (o : Nat) : Nat := (o + 6) % 7

/-- The `while current_week_start <= last_day` loop of `get_month_weeks`:
emit Monday-to-Sunday windows stepping a week at a time.  The loop is
structurally recursive on a fuel argument so that it reduces inside the
kernel; `getMonthWeeks` passes `last + 1 - start` fuel, which dominates
the number of iterations because `start` grows by 7 each round. -/
def monthWeeksLoop (last : Nat) : Nat → Nat → List (Nat × Nat)
  | 0, _ => []
  | fuel + 1, start =>
      if start ≤ last then (start, start + 6) :: monthWeeksLoop last fuel (start + 7)
      else []

/-- `get_month_weeks(year, month)`: the ordered Monday-aligned week windows
whose union covers the month (`src/utils/helpers.py` lines 29-56). -/
def getMonthWeeks (year month : Nat) : List (Nat × Nat) :=
  let first_day := toOrdinal year month 1
  let last_day := first_day + daysInMonth year month - 1
  let week_start := first_day - pyWeekday first_day
  monthWeeksLoop last_day (last_day + 1 - week_start) week_start

/-! ## Data model (`src/core/models.py`) -/

/-- `WeeklyAssignment`: one person's assignments inside one week window;
`assignments` is the insertion-ordered `room -> date` dict. -/
structure WeeklyAssignment where
  week_number : Nat
  week_start : Nat
  week_end : Nat
  assignments : List (String × Nat) := []
deriving DecidableEq, Repr

/-- `WeeklyAssignment.add_assignment`. -/
def WeeklyAssignment.add_assignment (w : WeeklyAssignment) (room : String) (d : Nat) :
    WeeklyAssignment :=
  { w with assignments := dictSet room d w.assignments }

/-- `WeeklyAssignment.get_assigned_dates` (as a list; only membership is
ever consumed). -/
def WeeklyAssignment.get_assigned_dates (w : WeeklyAssignment) : List Nat :=
  w.assignments.map (fun a => a.2)

/-- `Person`: name, counters, per-week record and absence dates.  The
source's mutable object is modelled as a value; all mutation goes through
`SchedulingState`. -/
structure Person where
  name : String
  total_assignments : Nat := 0
  room_assignments : List (String × Nat) := []
  weekly_data : List (Nat × WeeklyAssignment) := []
  absences : List Nat := []
deriving DecidableEq, Repr

instance : Inhabited Person := ⟨{ name := "" }⟩

/-- `Person.get_room_count`. -/
def Person.get_room_count (p : Person) (room : String) : Nat :=
  dictGetD room p.room_assignments 0

/-- `Person.get_weekly_assignment`. -/
def Person.get_weekly_assignment (p : Person) (week_number : Nat) : Option WeeklyAssignment :=
  dictGet? week_number p.weekly_data

/-- `Person.is_available_on_date`. -/
def Person.is_available_on_date (p : Person) (check_date : Nat) : Bool :=
  ! p.absences.contains check_date

/-- The inclusive date range `start .. stop` (the `while current_date <=
week_end` enumeration). -/
def dateRange (start stop : Nat) : List Nat :=
  (List.range (stop + 1 - start)).map (fun i => start + i)

/-- `Person.get_available_days_in_week`: the available dates of the window
with weekdays (Mon-Fri) listed before weekend days, chronological within
each part. -/
def Person.get_available_days_in_week (p : Person) (week_start week_end : Nat) : List Nat :=
  let available_days := (dateRange week_start week_end).filter
    (fun d => p.is_available_on_date d)
  let workdays := available_days.filter (fun d => pyWeekday d < 5)
  let weekends := available_days.filter (fun d => 5 ≤ pyWeekday d)
  workdays ++ weekends

/-- `Person.has_used_day_in_week`: whether the person already holds an
assignment on `check_date` in week `week_number`. -/
def Person.has_used_day_in_week (p : Person) (check_date : Nat) (week_number : Nat) : Bool :=
  match p.get_weekly_assignment week_number with
  | none => false
  | some weekly => (weekly.get_assigned_dates).contains check_date

/-- `RoomAssignment`: one committed room/person/date record.  The snapshot
of `models.py` under `src/` declares only the first four fields, but
`scheduler.py` constructs the record with `is_grouped=...` and
`group_name=...` keywords; the two extra fields are modelled from the
spec (section 3, Assignment: `{room, person, date, weekNumber, isGrouped,
groupName?}`).  `person` is the person's (unique) name. -/
structure RoomAssignment where
  room : String
  person : String
  assignment_date : Nat
  week_number : Nat
  is_grouped : Bool := false
  group_name : Option String := none
deriving DecidableEq, Repr

/-- `SchedulingState`: ledger of assignments plus the arena of person
records (the source's `people` dict in insertion order).  The
`daily_assignments` index of the source is derived data that the engine
never reads (only `print_summary` and unused getters touch it), so it is
not carried. -/
structure SchedulingState where
  people : List Person
  rooms : List String
  assignments : List RoomAssignment := []
deriving DecidableEq, Repr

/-- Look a person up by name (the source follows an object reference; all
names are unique by precondition). -/
def SchedulingState.person (st : SchedulingState) (name : String) : Person :=
  (st.people.find? (fun p => p.name == name)).getD default

/-- The per-person update performed by `SchedulingState.add_assignment`:
record the room/date pair in the week's `WeeklyAssignment` (when the week
exists) and bump both counters. -/
def Person.applyAssignment (p : Person) (a : RoomAssignment) : Person :=
  let p1 :=
    match p.get_weekly_assignment a.week_number with
    | some weekly =>
        let wd := dictSet a.week_number (weekly.add_assignment a.room a.assignment_date)
          p.weekly_data
        { p with weekly_data := wd }
    | none => p
  { p1 with
    room_assignments :=
      dictSet a.room (dictGetD a.room p1.room_assignments 0 + 1) p1.room_assignments,
    total_assignments := p1.total_assignments + 1 }

/-- `SchedulingState.add_assignment`: append to the ledger and update the
(shared) person object named by the assignment. -/
def SchedulingState.add_assignment (st : SchedulingState) (a : RoomAssignment) :
    SchedulingState :=
  { st with
    assignments := st.assignments ++ [a],
    people := st.people.map (fun p => if p.name == a.person then p.applyAssignment a else p) }

/-! ## The scheduler (`src/core/scheduler.py`)

Leading underscores of the source's private method names are dropped
(`_calculate_balanced_targets` becomes `calculate_balanced_targets`,
and so on). -/

/-- One entry of `room_groups_config['gruppi']`. -/
structure RoomGroupConfig where
  nome : String
  stanze : List String
  descrizione : String := ""
deriving DecidableEq, Repr

/-- The `room_groups_config` dict: `{'abilitato': ..., 'gruppi': [...]}`. -/
structure RoomGroupsConfig where
  abilitato : Bool := false
  gruppi : List RoomGroupConfig := []
deriving DecidableEq, Repr

/-- Modelled from the spec: `RoomGroup` is imported by `scheduler.py` from
`models.py` but absent from the snapshot of `models.py` under `src/`.
Per spec section 3 it is a named set of at least two rooms assigned
together as one unit; the constructor calls in `scheduler.py` fix its
fields as `nome`, `stanze`, `descrizione`. -/
structure RoomGroup where
  nome : String
  stanze : List String
  descrizione : String := ""
deriving DecidableEq, Repr

/-- `CleaningScheduler`: configured room list and grouping configuration.
(The `room_groups_config` override parameter of `generate_schedule`
re-runs the same group construction; here the configuration is fixed at
construction, which covers both paths.) -/
structure CleaningScheduler where
  rooms : List String
  room_groups_config : RoomGroupsConfig := {}
deriving DecidableEq, Repr

/-- The `room_groups` list built in `CleaningScheduler.__init__` (and
rebuilt identically in `generate_schedule`): each configured group is kept
with its rooms filtered to the active room set, and only if at least two
valid rooms remain. -/
def CleaningScheduler.room_groups (sched : CleaningScheduler) : List RoomGroup :=
  if sched.room_groups_config.abilitato then
    sched.room_groups_config.gruppi.filterMap (fun gc =>
      let valid_rooms := gc.stanze.filter (fun r => sched.rooms.contains r)
      if 2 ≤ valid_rooms.length then
        some { nome := gc.nome, stanze := valid_rooms, descrizione := gc.descrizione }
      else none)
  else []

/-- The `for i, person in enumerate(available_people)` loop of
`_calculate_balanced_targets`, threading the mutable `extra_rooms`
counter.  `mn`/`mx` are the min/max current loads, `base` the integer
base target. -/
def calcTargetsGo (st : SchedulingState) (mn mx base : Nat) :
    List String → Nat → Nat → List (String × Nat)
  | [], _, _ => []
  | n :: rest, i, extra =>
      let current_load := (st.person n).total_assignments
      if mn < mx then
        if current_load = mn ∧ 0 < extra then
          let bonus_rooms := min extra (mx - current_load + 1)
          (n, max 0 (base + bonus_rooms)) :: calcTargetsGo st mn mx base rest (i + 1) (extra - bonus_rooms)
        else if current_load < mx ∧ 0 < extra then
          let bonus_rooms := min 1 extra
          (n, max 0 (base + bonus_rooms)) :: calcTargetsGo st mn mx base rest (i + 1) (extra - bonus_rooms)
        else
          (n, max 0 base) :: calcTargetsGo st mn mx base rest (i + 1) extra
      else
        if i < extra then
          (n, max 0 (base + 1)) :: calcTargetsGo st mn mx base rest (i + 1) extra
        else
          (n, max 0 base) :: calcTargetsGo st mn mx base rest (i + 1) extra

/-- `_calculate_balanced_targets`: per-person week targets from the
current total loads (name-keyed, in `available_people` order). -/
def calculate_balanced_targets (st : SchedulingState) (available_people : List String)
    (num_rooms : Nat) : List (String × Nat) :=
  match available_people with
  | [] => []
  | _ =>
    let total_assignments := available_people.map (fun n => (st.person n).total_assignments)
    calcTargetsGo st (minList total_assignments) (maxList total_assignments)
      (num_rooms / available_people.length) available_people 0
      (num_rooms % available_people.length)

/-- `_prioritize_rooms_for_rotation`: stable descending sort of the rooms
by `100 * disparity + 50 * never-done + (25 if average < 1)`.  The float
comparison `avg_count < 1.0` with `avg_count = sum/len` is exactly
`sum < len` on integers. -/
def prioritize_rooms_for_rotation (st : SchedulingState) (rooms : List String)
    (available_people : List String) : List String :=
  let room_priorities := rooms.map (fun room =>
    let room_counts := available_people.map (fun n => (st.person n).get_room_count room)
    let priority_score : Int :=
      match room_counts with
      | [] => 0
      | _ =>
          ((maxList room_counts - minList room_counts) * 100
            + room_counts.count 0 * 50
            + (if room_counts.sum < room_counts.length then 25 else 0) : Nat)
    (priority_score, room))
  (sortScoreDesc (fun x => x.1) room_priorities).map (fun x => x.2)

/-- The fixed `day_bonuses` table `{0: 15, ..., 6: 1}`. -/
def day_bonuses (wd : Nat) : Int :=
  match wd with
  | 0 => 15
  | 1 => 12
  | 2 => 10
  | 3 => 8
  | 4 => 5
  | 5 => 3
  | 6 => 1
  | _ => 0

/-- `_calculate_person_room_score_with_context`: room-rotation part,
total-load part, weekday preference and day-of-week bonus, all relative
to the minima over `all_available_people`. -/
def calculate_person_room_score_with_context (st : SchedulingState) (person : String)
    (room : String) (assignment_date : Nat) (all_available_people : List String) : Int :=
  let p := st.person person
  let room_count : Int := p.get_room_count room
  let min_room_count : Int :=
    minList (all_available_people.map (fun n => (st.person n).get_room_count room))
  let rotation : Int :=
    if room_count = min_room_count then 400
    else if room_count = min_room_count + 1 then 200
    else -((room_count - min_room_count) * 100)
  let total_assignments : Int := p.total_assignments
  let min_load : Int :=
    minList (all_available_people.map (fun n => (st.person n).total_assignments))
  let balancing : Int :=
    if total_assignments = min_load then 600
    else if total_assignments = min_load + 1 then 400
    else if total_assignments = min_load + 2 then 200
    else -((total_assignments - min_load) * 150)
  let weekday_pref : Int := if pyWeekday assignment_date < 5 then 30 else 10
  rotation + balancing + weekday_pref + day_bonuses (pyWeekday assignment_date)

/-- The candidate list of `_find_best_person_for_room`, already sorted:
available people not excluded for this room in week 1, scored, in stable
descending score order. -/
def rankCandidatesForRoom (st : SchedulingState) (room : String)
    (available_people : List String) (week_number : Nat)
    (excluded_first_week : List (String × List String)) (assignment_date : Nat) :
    List (Int × String) :=
  let candidates := available_people.filterMap (fun n =>
    if week_number = 1 ∧
        (match dictGet? n excluded_first_week with
         | some ex => ex.contains room
         | none => false) = true then
      none
    else
      some (calculate_person_room_score_with_context st n room assignment_date
        available_people, n))
  sortScoreDesc (fun c => c.1) candidates

/-- `_find_best_person_for_room`: head of the ranked candidate list. -/
def find_best_person_for_room (st : SchedulingState) (room : String)
    (available_people : List String) (week_number : Nat)
    (excluded_first_week : List (String × List String)) (assignment_date : Nat) :
    Option String :=
  match rankCandidatesForRoom st room available_people week_number excluded_first_week
      assignment_date with
  | [] => none
  | c :: _ => some c.2

/-- The `for room in prioritized_rooms` loop of the chronological greedy
pass: commit at most `max_assignments_today` rooms on `current_date`,
kicking a person out of `available_today` once they reach their weekly
target.  Returns the updated state, `rooms_assigned` and
`person_assignments_count`. -/
def greedyRoomsLoop (week_number : Nat) (excluded_first_week : List (String × List String))
    (current_date : Nat) (max_assignments_today : Nat) (person_targets : List (String × Nat)) :
    List String → SchedulingState → List String → List (String × Nat) → List String → Nat →
    SchedulingState × List String × List (String × Nat)
  | [], st, rooms_assigned, counts, _, _ => (st, rooms_assigned, counts)
  | room :: rest, st, rooms_assigned, counts, available_today, made_today =>
      if max_assignments_today ≤ made_today then (st, rooms_assigned, counts)
      else if rooms_assigned.contains room then
        greedyRoomsLoop week_number excluded_first_week current_date max_assignments_today
          person_targets rest st rooms_assigned counts available_today made_today
      else
        match find_best_person_for_room st room available_today week_number
            excluded_first_week current_date with
        | none =>
            greedyRoomsLoop week_number excluded_first_week current_date max_assignments_today
              person_targets rest st rooms_assigned counts available_today made_today
        | some best_person =>
            let st2 := st.add_assignment
              { room := room, person := best_person, assignment_date := current_date,
                week_number := week_number }
            let counts2 := dictSet best_person (dictGetD best_person counts 0 + 1) counts
            let available2 :=
              if dictGetD best_person person_targets 0 ≤ dictGetD best_person counts2 0 then
                available_today.erase best_person
              else available_today
            greedyRoomsLoop week_number excluded_first_week current_date max_assignments_today
              person_targets rest st2 (rooms_assigned ++ [room]) counts2 available2
              (made_today + 1)

/-- The `for current_date in chronological_dates` loop of the greedy pass:
per date, filter today's eligible people, compute the day quota
`min(3, max(1, remaining_rooms // remaining_dates))` and run the room
loop.  Returns the state and the committed room set. -/
def greedyDatesLoop (sched_rooms : List String) (week_number : Nat)
    (excluded_first_week : List (String × List String)) (chronological_dates : List Nat)
    (person_targets : List (String × Nat)) (available_people : List String) :
    List Nat → SchedulingState → List String → List (String × Nat) →
    SchedulingState × List String
  | [], st, rooms_assigned, _ => (st, rooms_assigned)
  | current_date :: rest, st, rooms_assigned, counts =>
      let unassigned_rooms := sched_rooms.filter (fun r => ! rooms_assigned.contains r)
      if unassigned_rooms.isEmpty then (st, rooms_assigned)
      else
        let available_today := available_people.filter (fun n =>
          let p := st.person n
          (p.get_weekly_assignment week_number).isSome &&
          p.is_available_on_date current_date &&
          ! p.has_used_day_in_week current_date week_number &&
          decide (dictGetD n counts 0 < dictGetD n person_targets 0))
        if available_today.isEmpty then
          greedyDatesLoop sched_rooms week_number excluded_first_week chronological_dates
            person_targets available_people rest st rooms_assigned counts
        else
          let remaining_rooms := unassigned_rooms.length
          let remaining_dates :=
            (chronological_dates.filter (fun d => current_date ≤ d)).length
          let max_assignments_today := min 3 (max 1 (remaining_rooms / max 1 remaining_dates))
          let prioritized_rooms := prioritize_rooms_for_rotation st unassigned_rooms
            available_today
          let r := greedyRoomsLoop week_number excluded_first_week current_date
            max_assignments_today person_targets prioritized_rooms st rooms_assigned counts
            available_today 0
          greedyDatesLoop sched_rooms week_number excluded_first_week chronological_dates
            person_targets available_people rest r.1 r.2.1 r.2.2

/-- The inner `for assignment_date in available_dates` scan of the
fallback pass for one person, threading the running `(best_score, best)`
pair (initially `(-1, none)`); only a strictly better score replaces the
incumbent. -/
def fallbackScanDates (st : SchedulingState) (week_number : Nat) (room : String)
    (available_people : List String) (person : String) :
    List Nat → Int × Option (String × Nat) → Int × Option (String × Nat)
  | [], acc => acc
  | d :: rest, acc =>
      let p := st.person person
      if p.is_available_on_date d && ! p.has_used_day_in_week d week_number then
        let score := calculate_person_room_score_with_context st person room d
          available_people
        if acc.1 < score then
          fallbackScanDates st week_number room available_people person rest (score, some (person, d))
        else
          fallbackScanDates st week_number room available_people person rest acc
      else
        fallbackScanDates st week_number room available_people person rest acc

/-- The outer `for person in available_people` scan of the fallback pass. -/
def fallbackScanPeople (st : SchedulingState) (week_number : Nat) (room : String)
    (available_people : List String) (available_dates : List Nat) :
    List String → Int × Option (String × Nat) → Int × Option (String × Nat)
  | [], acc => acc
  | person :: rest, acc =>
      fallbackScanPeople st week_number room available_people available_dates rest
        (fallbackScanDates st week_number room available_people person available_dates acc)

/-- The best still-eligible `(person, date)` pair for one fallback room,
if any candidate scored above the initial `-1`. -/
def fallbackBestPair (st : SchedulingState) (week_number : Nat) (room : String)
    (available_people : List String) (available_dates : List Nat) :
    Option (String × Nat) :=
  (fallbackScanPeople st week_number room available_people available_dates available_people
    (-1, none)).2

/-- `_assign_remaining_rooms_fallback`: assign each remaining room to its
best-scoring `(person, date)` pair, or silently skip the room when no
pair qualifies. -/
def assign_remaining_rooms_fallback (week_number : Nat) (available_people : List String)
    (available_dates : List Nat) :
    List String → SchedulingState → SchedulingState
  | [], st => st
  | room :: rest, st =>
      match fallbackBestPair st week_number room available_people available_dates with
      | none => assign_remaining_rooms_fallback week_number available_people available_dates rest st
      | some pd =>
          let st2 := st.add_assignment
            { room := room, person := pd.1, assignment_date := pd.2,
              week_number := week_number }
          assign_remaining_rooms_fallback week_number available_people available_dates rest st2

/-- The `all_available_dates` set-union-then-sort computed at the top of
both `_assign_week_with_objects` (lines 205-212) and
`_assign_week_with_grouping` (lines 579-586): per person, the available
days of this week's window, deduplicated in first-seen order, sorted
ascending. -/
def computeChronologicalDates (st : SchedulingState) (available_people : List String)
    (week_number : Nat) : List Nat :=
  let all_available_dates := available_people.foldl (fun acc n =>
    let p := st.person n
    match p.get_weekly_assignment week_number with
    | none => acc
    | some weekly =>
        (p.get_available_days_in_week weekly.week_start weekly.week_end).foldl
          (fun acc2 d => if acc2.contains d then acc2 else acc2 ++ [d]) acc) []
  sortAscBy (fun a b => decide (a ≤ b)) all_available_dates

/-- `_assign_week_normal_logic` (lines 641-739): targets, chronological
greedy pass over the supplied dates, then the fallback pass for any rooms
left over.  The body of this method is textually identical to the inline
ungrouped branch of `_assign_week_with_objects` (lines 198-297); the
embedding shares one copy. -/
def assign_week_normal_logic (sched : CleaningScheduler) (available_people : List String)
    (week_number : Nat) (excluded_first_week : List (String × List String))
    (st : SchedulingState) (chronological_dates : List Nat) : SchedulingState :=
  let num_rooms := sched.rooms.length
  let person_targets := calculate_balanced_targets st available_people num_rooms
  let counts0 := available_people.map (fun n => (n, 0))
  let r := greedyDatesLoop sched.rooms week_number excluded_first_week chronological_dates
    person_targets available_people chronological_dates st [] counts0
  let unassigned_rooms := sched.rooms.filter (fun rm => ! r.2.contains rm)
  if unassigned_rooms.isEmpty then r.1
  else assign_remaining_rooms_fallback week_number available_people chronological_dates
    unassigned_rooms r.1

/-- One entry of the `assignment_units` list built by
`_assign_week_with_grouping`: the dict
`{'type', 'rooms', 'name', 'description'}` with `isGroup` standing for
`type == 'group'`. -/
structure AssignmentUnit where
  isGroup : Bool
  rooms : List String
  name : String
  description : String := ""
deriving DecidableEq, Repr

/-- The unit-building phase of `_assign_week_with_grouping` (lines
589-615): every valid group becomes one multi-room unit (rooms
re-filtered against the active set), every room not covered by a kept
group becomes a single-room unit. -/
def buildAssignmentUnits (sched : CleaningScheduler) : List AssignmentUnit :=
  let group_units := sched.room_groups.filterMap (fun g =>
    let group_rooms_available := g.stanze.filter (fun r => sched.rooms.contains r)
    if 2 ≤ group_rooms_available.length then
      some { isGroup := true, rooms := group_rooms_available, name := g.nome,
             description := g.descrizione }
    else none)
  let grouped_rooms := group_units.foldl (fun acc u => acc ++ u.rooms) ([] : List String)
  let single_units := (sched.rooms.filter (fun r => ! grouped_rooms.contains r)).map
    (fun room =>
      { isGroup := false, rooms := [room], name := room,
        description := "Stanza singola: " ++ room })
  group_units ++ single_units

/-- `_calculate_balanced_targets_with_grouping`: weight-based targets for
the grouping mode.  (Computed by the source at line 631 and then never
read; kept for completeness.) -/
def calculate_balanced_targets_with_grouping (available_people : List String)
    (unit_weights : List (String × Nat)) : List (String × Nat) :=
  match available_people with
  | [] => []
  | _ =>
    let total_weight := (unit_weights.map (fun w => w.2)).sum
    let base_weight := total_weight / available_people.length
    let extra_weight := total_weight % available_people.length
    (List.range available_people.length).zip available_people |>.map (fun x =>
      let target_weight := if x.1 < extra_weight then base_weight + 1 else base_weight
      (x.2, max 1 target_weight))

/-- `_calculate_unit_person_score`: load balancing (dominant), per-room
rotation summed over the unit, a type bonus, and the anti-repetition
penalty counting this person's previous grouped assignments in the
ledger. -/
def calculate_unit_person_score (st : SchedulingState) (person : String)
    (unit : AssignmentUnit) (all_people : List String) : Int :=
  let p := st.person person
  let total_assignments : Int := p.total_assignments
  let min_load : Int := minList (all_people.map (fun n => (st.person n).total_assignments))
  let balancing : Int :=
    if total_assignments = min_load then 1000
    else if total_assignments = min_load + 1 then 700
    else if total_assignments = min_load + 2 then 400
    else -((total_assignments - min_load) * 200)
  let room_rotation_bonus : Int := unit.rooms.foldl (fun acc room =>
    let room_count : Int := p.get_room_count room
    let min_room_count : Int :=
      minList (all_people.map (fun n => (st.person n).get_room_count room))
    if room_count = min_room_count then acc + 300
    else if room_count = min_room_count + 1 then acc + 150
    else acc - (room_count - min_room_count) * 100) 0
  let type_bonus : Int := if unit.isGroup then 50 else 20
  let grouped_assignments : Int :=
    (st.assignments.filter (fun a => a.person == person && a.is_grouped)).length
  let diversity : Int :=
    if unit.isGroup ∧ 0 < grouped_assignments then -(grouped_assignments * 100) else 0
  balancing + room_rotation_bonus + type_bonus + diversity

/-- The date scan of `_find_best_date_with_distribution`, threading the
`(best_score, best_date)` pair (initially `(-1, none)`). -/
def bestDateScan (st : SchedulingState) (person : String) (unit : AssignmentUnit)
    (week_number : Nat) (excluded_first_week : List (String × List String))
    (used_dates : List (Nat × Nat)) :
    List Nat → Int × Option Nat → Int × Option Nat
  | [], acc => acc
  | check_date :: rest, acc =>
      let p := st.person person
      if p.is_available_on_date check_date &&
          ! p.has_used_day_in_week check_date week_number then
        if week_number = 1 ∧
            (match dictGet? person excluded_first_week with
             | some ex => unit.rooms.any (fun r => ex.contains r)
             | none => false) = true then
          bestDateScan st person unit week_number excluded_first_week used_dates rest acc
        else
          let current_day_load := dictGetD check_date used_dates 0
          let distribution : Int :=
            if current_day_load = 0 then 200
            else if current_day_load ≤ 1 then 100
            else if current_day_load ≤ 2 then 25
            else -((current_day_load : Int) * 50)
          let weekday_pref : Int := if pyWeekday check_date < 5 then 30 else 10
          let load_bonus : Int :=
            if (st.person person).total_assignments ≤ 2 then 50
            else if (st.person person).total_assignments ≤ 4 then 25
            else 0
          let group_penalty : Int :=
            if unit.isGroup ∧ 0 < current_day_load then -30 else 0
          let score := distribution + weekday_pref + day_bonuses (pyWeekday check_date)
            + load_bonus + group_penalty
          if acc.1 < score then
            bestDateScan st person unit week_number excluded_first_week used_dates rest
              (score, some check_date)
          else
            bestDateScan st person unit week_number excluded_first_week used_dates rest acc
      else
        bestDateScan st person unit week_number excluded_first_week used_dates rest acc

/-- `_find_best_date_with_distribution`: best date for a unit/person pair,
penalising dates already carrying assignments this week. -/
def find_best_date_with_distribution (st : SchedulingState) (person : String)
    (unit : AssignmentUnit) (available_dates : List Nat) (week_number : Nat)
    (excluded_first_week : List (String × List String)) (used_dates : List (Nat × Nat)) :
    Option Nat :=
  match (st.person person).get_weekly_assignment week_number with
  | none => none
  | some _ =>
      (bestDateScan st person unit week_number excluded_first_week used_dates
        available_dates (-1, none)).2

/-- The `unit_person_scores` list of `_assign_units_with_balancing`:
unit-major, people in input order, skipping week-1 excluded combinations,
then stably sorted by descending score. -/
def buildUnitPersonScores (st : SchedulingState) (week_number : Nat)
    (excluded_first_week : List (String × List String)) (units : List AssignmentUnit)
    (available_people : List String) : List (AssignmentUnit × String × Int) :=
  let combos := (units.map (fun unit =>
    available_people.filterMap (fun n =>
      if week_number = 1 ∧
          (match dictGet? n excluded_first_week with
           | some ex => unit.rooms.any (fun r => ex.contains r)
           | none => false) = true then
        none
      else
        some (unit, n, calculate_unit_person_score st n unit available_people)))).flatten
  sortScoreDesc (fun c => c.2.2) combos

/-- Commit every room of a unit to one person on one date (the inner
`for room in unit['rooms']` loop). -/
def commitUnitRooms (person : String) (best_date : Nat) (week_number : Nat)
    (unit : AssignmentUnit) (st : SchedulingState) : SchedulingState :=
  unit.rooms.foldl (fun s room =>
    s.add_assignment
      { room := room, person := person, assignment_date := best_date,
        week_number := week_number, is_grouped := unit.isGroup,
        group_name := if unit.isGroup then some unit.name else none }) st

/-- The main `for combo in unit_person_scores` loop of
`_assign_units_with_balancing`, threading assigned units and people and
the `used_dates` day-load dict; stops early once every unit is
assigned. -/
def assignUnitsLoop (week_number : Nat) (excluded_first_week : List (String × List String))
    (chronological_dates : List Nat) (total_units : Nat) :
    List (AssignmentUnit × String × Int) → SchedulingState → List String → List String →
    List (Nat × Nat) → SchedulingState × List String × List String
  | [], st, assigned_units, assigned_people, _ => (st, assigned_units, assigned_people)
  | (unit, person, _) :: rest, st, assigned_units, assigned_people, used_dates =>
      if assigned_units.contains unit.name || assigned_people.contains person then
        assignUnitsLoop week_number excluded_first_week chronological_dates total_units rest
          st assigned_units assigned_people used_dates
      else
        match find_best_date_with_distribution st person unit chronological_dates
            week_number excluded_first_week used_dates with
        | none =>
            assignUnitsLoop week_number excluded_first_week chronological_dates total_units
              rest st assigned_units assigned_people used_dates
        | some best_date =>
            let st2 := commitUnitRooms person best_date week_number unit st
            let au2 := assigned_units ++ [unit.name]
            let ap2 := assigned_people ++ [person]
            let used2 := dictSet best_date (dictGetD best_date used_dates 0 + unit.rooms.length)
              used_dates
            if au2.length = total_units then (st2, au2, ap2)
            else
              assignUnitsLoop week_number excluded_first_week chronological_dates total_units
                rest st2 au2 ap2 used2

/-- The terminal fallback of `_assign_units_with_balancing` (lines
909-933): any unit still unassigned goes to the first person not yet
assigned, on the first chronological date.  Note that the source never
extends `assigned_people` inside this loop. -/
def groupFallbackLoop (week_number : Nat) (available_people : List String)
    (chronological_dates : List Nat) (assigned_people : List String) :
    List AssignmentUnit → SchedulingState → SchedulingState
  | [], st => st
  | unit :: rest, st =>
      match available_people.filter (fun n => ! assigned_people.contains n) with
      | [] =>
          groupFallbackLoop week_number available_people chronological_dates assigned_people
            rest st
      | person :: _ =>
          match chronological_dates with
          | [] =>
              groupFallbackLoop week_number available_people chronological_dates
                assigned_people rest st
          | best_date :: _ =>
              groupFallbackLoop week_number available_people chronological_dates
                assigned_people rest (commitUnitRooms person best_date week_number unit st)

/-- `_assign_units_with_balancing`: score all unit/person combos, commit
them greedily best-first, then run the terminal fallback for leftover
units. -/
def assign_units_with_balancing (assignment_units : List AssignmentUnit)
    (available_people : List String) (chronological_dates : List Nat) (week_number : Nat)
    (excluded_first_week : List (String × List String)) (st : SchedulingState) :
    SchedulingState :=
  let combos := buildUnitPersonScores st week_number excluded_first_week assignment_units
    available_people
  let r := assignUnitsLoop week_number excluded_first_week chronological_dates
    assignment_units.length combos st [] [] []
  let unassigned_units := assignment_units.filter (fun u => ! r.2.1.contains u.name)
  groupFallbackLoop week_number available_people chronological_dates r.2.2
    unassigned_units r.1

/-- `_assign_week_with_grouping`: build the units; when their number
differs from 3, abort grouping and run the ordinary weekly algorithm on
the same (identically computed) chronological dates, otherwise assign the
units.  (The `person_targets` computed from `unit_weights` at line 631 is
dead code in the source: its value is never read.) -/
def assign_week_with_grouping (sched : CleaningScheduler) (available_people : List String)
    (week_number : Nat) (excluded_first_week : List (String × List String))
    (st : SchedulingState) : SchedulingState :=
  let chronological_dates := computeChronologicalDates st available_people week_number
  let assignment_units := buildAssignmentUnits sched
  if assignment_units.length ≠ 3 then
    assign_week_normal_logic sched available_people week_number excluded_first_week st
      chronological_dates
  else
    assign_units_with_balancing assignment_units available_people chronological_dates
      week_number excluded_first_week st

/-- `_assign_week_with_objects`: route the week to the grouping algorithm
when exactly 3 people are available, grouping is enabled and at least one
valid group exists; otherwise run the ordinary algorithm (its inline body,
lines 198-297, is textually the duplicate of `_assign_week_normal_logic`
with the chronological dates computed by the same code as lines
579-586). -/
def assign_week_with_objects (sched : CleaningScheduler) (available_people : List String)
    (week_number : Nat) (excluded_first_week : List (String × List String))
    (st : SchedulingState) : SchedulingState :=
  let should_group_rooms :=
    available_people.length = 3 ∧ sched.room_groups_config.abilitato = true ∧
      0 < sched.room_groups.length
  if should_group_rooms then
    assign_week_with_grouping sched available_people week_number excluded_first_week st
  else
    assign_week_normal_logic sched available_people week_number excluded_first_week st
      (computeChronologicalDates st available_people week_number)

/-! ## `generate_schedule` -/

/-- Expand `[start, end]` absence intervals (already as ordinals) into the
per-person list of absence dates, as the interval loop of
`generate_schedule` does. -/
def expandAbsenceDates (intervals : List (Nat × Nat)) : List Nat :=
  intervals.foldl (fun acc se => acc ++ dateRange se.1 se.2) []

/-- The `Person` construction loop of `generate_schedule`: one object per
name, all room counters initialised to 0 (`initialize_rooms`), absences
expanded. -/
def initPersonObjects (sched : CleaningScheduler) (people : List String)
    (absences : List (String × List (Nat × Nat))) : List Person :=
  people.map (fun name =>
    { name := name,
      total_assignments := 0,
      room_assignments := sched.rooms.foldl (fun acc r => dictSet r 0 acc) [],
      weekly_data := [],
      absences := expandAbsenceDates (dictGetD name absences []) })

/-- The per-week `WeeklyAssignment` creation: every person (available or
not) gets a fresh record for the week. -/
def setupWeeklyData (week_number week_start week_end : Nat) (people : List Person) :
    List Person :=
  people.map (fun p =>
    let fresh : WeeklyAssignment :=
      { week_number := week_number, week_start := week_start, week_end := week_end,
        assignments := [] }
    { p with weekly_data := dictSet week_number fresh p.weekly_data })

/-- The `for week_num, (week_start, week_end) in enumerate(weeks, 1)` loop
of `generate_schedule`: set up the weekly records, find the people with a
nonempty availability in the window, and run the weekly engine (skipping
the week when nobody is available). -/
def generateWeeksLoop (sched : CleaningScheduler)
    (excluded_first_week : List (String × List String)) :
    List (Nat × Nat × Nat) → SchedulingState → SchedulingState
  | [], st => st
  | (week_num, week_start, week_end) :: rest, st =>
      let st1 := { st with people := setupWeeklyData week_num week_start week_end st.people }
      let available_people := (st1.people.filter (fun p =>
        ! (p.get_available_days_in_week week_start week_end).isEmpty)).map (fun p => p.name)
      if available_people.isEmpty then
        generateWeeksLoop sched excluded_first_week rest st1
      else
        generateWeeksLoop sched excluded_first_week rest
          (assign_week_with_objects sched available_people week_num excluded_first_week st1)

/-- Number the week windows starting from 1 (`enumerate(weeks, 1)`). -/
def enumerateWeeks (weeks : List (Nat × Nat)) : List (Nat × Nat × Nat) :=
  ((List.range weeks.length).zip weeks).map (fun x => (x.1 + 1, x.2.1, x.2.2))

/-- `generate_schedule` up to its final state: seed the people and the
state, then run every week of the month in order.  (The unused
`priority_first_week` parameter of the source - set to a default and then
never read - is omitted.) -/
def CleaningScheduler.generate_schedule_state (sched : CleaningScheduler)
    (people : List String) (year month : Nat)
    (absences : List (String × List (Nat × Nat)))
    (excluded_first_week : List (String × List String)) : SchedulingState :=
  let weeks := getMonthWeeks year month
  let person_objects := initPersonObjects sched people absences
  let st : SchedulingState :=
    { people := person_objects, rooms := sched.rooms, assignments := [] }
  generateWeeksLoop sched excluded_first_week (enumerateWeeks weeks) st

/-- One row of the returned DataFrame (the fields that carry scheduling
content; the purely textual columns - period and weekday labels - are
functions of these). -/
structure ScheduleRow where
  settimana : Nat
  stanza : String
  persona : String
  data_specifica : Nat
deriving DecidableEq, Repr

/-- Code-point lexicographic order on character lists (the order Python
uses for `str` comparison). -/
def charListLe : List Char → List Char → Bool
  | [], _ => true
  | _ :: _, [] => false
  | c :: cs, d :: ds =>
      if c.toNat < d.toNat then true
      else if d.toNat < c.toNat then false
      else charListLe cs ds

/-- Python string comparison `a <= b` by code points. -/
def strLe (a b : String) : Bool := charListLe a.data b.data

/-- The `df.sort_values(['Data_Specifica', 'Stanza'])` key: ascending by
date, then by room name. -/
def rowLe (a b : ScheduleRow) : Bool :=
  decide (a.data_specifica < b.data_specifica) ||
    (decide (a.data_specifica = b.data_specifica) && strLe a.stanza b.stanza)

/-- `generate_schedule`: the final ledger flattened into rows (dropping
any assignment whose week number is not among the month's weeks, as the
`if week_start is None` guard does) and stably sorted by date then
room. -/
def CleaningScheduler.generate_schedule (sched : CleaningScheduler)
    (people : List String) (year month : Nat)
    (absences : List (String × List (Nat × Nat)))
    (excluded_first_week : List (String × List String)) : List ScheduleRow :=
  let st := sched.generate_schedule_state people year month absences excluded_first_week
  let weeks := enumerateWeeks (getMonthWeeks year month)
  let schedule_data := st.assignments.filterMap (fun a =>
    match weeks.find? (fun w => w.1 == a.week_number) with
    | none => none
    | some _ =>
        some { settimana := a.week_number, stanza := a.room, persona := a.person,
               data_specifica := a.assignment_date })
  sortAscBy rowLe schedule_data

/-! ## Derived predicates used by the theorems -/

/-- The week-`w` slice of the ledger. -/
def weekAssignments (st : SchedulingState) (w : Nat) : List RoomAssignment :=
  st.assignments.filter (fun a => a.week_number == w)

/-- The date bound to `room` in `person`'s week-`w` record, if any. -/
def recordBinding (st : SchedulingState) (person : String) (w : Nat) (room : String) :
    Option Nat :=
  match (st.person person).get_weekly_assignment w with
  | none => none
  | some weekly => dictGet? room weekly.assignments

/-- Room-keyed record consistency: every week-`w` ledger entry is backed by
the corresponding room binding in its person's weekly record (which is what
`SchedulingState.add_assignment` maintains). -/
def RecordConsistent (st : SchedulingState) (w : Nat) : Prop :=
  ∀ a ∈ weekAssignments st w, recordBinding st a.person w a.room = some a.assignment_date

/-- Every listed person has a weekly record for week `w` (as
`generate_schedule` guarantees before any week is scheduled). -/
def RecordsExist (st : SchedulingState) (w : Nat) (names : List String) : Prop :=
  ∀ n ∈ names, ((st.person n).get_weekly_assignment w).isSome = true

/-- No two week-`w` ledger entries give the same person two assignments on
the same date. -/
def NoDupPersonDate (st : SchedulingState) (w : Nat) : Prop :=
  (weekAssignments st w).Pairwise
    (fun a b => ¬(a.person = b.person ∧ a.assignment_date = b.assignment_date))

/-- No two week-`w` ledger entries concern the same room. -/
def NoDupRooms (st : SchedulingState) (w : Nat) : Prop :=
  (weekAssignments st w).Pairwise (fun a b => a.room ≠ b.room)

instance (st : SchedulingState) (w : Nat) : Decidable (RecordConsistent st w) := by
  unfold RecordConsistent; infer_instance

instance (st : SchedulingState) (w : Nat) (names : List String) :
    Decidable (RecordsExist st w names) := by
  unfold RecordsExist; infer_instance

instance (st : SchedulingState) (w : Nat) : Decidable (NoDupPersonDate st w) := by
  unfold NoDupPersonDate; infer_instance

instance (st : SchedulingState) (w : Nat) : Decidable (NoDupRooms st w) := by
  unfold NoDupRooms; infer_instance

/-! ## Concrete scenarios

Dates use year 1 (proleptic Gregorian): January 1 of year 1 is ordinal 1
and a Monday, so the weeks of January year 1 are
`[(1,7), (8,14), (15,21), (22,28), (29,35)]`. -/

/-- Grouping configuration with the single group CV = {Cucina, Veranda}. -/
def cfgGroupCV : RoomGroupsConfig :=
  { abilitato := true, gruppi := [{ nome := "CV", stanze := ["Cucina", "Veranda"] }] }

/-- Four anonymous rooms. -/
def schedFourRooms : CleaningScheduler := { rooms := ["R1", "R2", "R3", "R4"] }

/-- Anna and Marco are absent on every day of the schedulable horizon of
January year 1 except its very first day (ordinals 2 through 35). -/
def absencesAllButDay1 : List (String × List (Nat × Nat)) :=
  [("Anna", [(2, 35)]), ("Marco", [(2, 35)])]

/-- Full run: 2 people, 4 rooms, January year 1, only day 1 available. -/
def stateSingleDayRun : SchedulingState :=
  schedFourRooms.generate_schedule_state ["Anna", "Marco"] 1 1 absencesAllButDay1 []

/-- The rows returned to the caller for the single-day run. -/
def rowsSingleDayRun : List ScheduleRow :=
  schedFourRooms.generate_schedule ["Anna", "Marco"] 1 1 absencesAllButDay1 []

/-- A single room. -/
def schedOneRoom : CleaningScheduler := { rooms := ["Bagno"] }

/-- Week-1 exclusions forbidding Bagno to both people. -/
def exclBagnoBoth : List (String × List String) :=
  [("Anna", ["Bagno"]), ("Marco", ["Bagno"])]

/-- Full run: 2 people, 1 room, January year 1, full availability, the
room excluded for everybody in week 1. -/
def stateExclRun : SchedulingState :=
  schedOneRoom.generate_schedule_state ["Anna", "Marco"] 1 1 [] exclBagnoBoth

/-- The three participants of the grouping scenarios. -/
def peopleAML : List String := ["Anna", "Marco", "Luca"]

/-- The spec's grouping scenario: rooms [Bagno, Cucina, Veranda,
Corridoio] with the CV group enabled. -/
def schedGrouping : CleaningScheduler :=
  { rooms := ["Bagno", "Cucina", "Veranda", "Corridoio"], room_groups_config := cfgGroupCV }

/-- Full run of the grouping scenario over January year 1 (5 weeks, three
people, no absences). -/
def stateGroupingRun : SchedulingState :=
  schedGrouping.generate_schedule_state peopleAML 1 1 [] []

/-- Two rooms for the fairness run. -/
def schedTwoRooms : CleaningScheduler := { rooms := ["Bagno", "Cucina"] }

/-- Full run: 3 people, 2 rooms, April year 1 (6 week windows), full
availability, no exclusions, no grouping. -/
def stateFairnessRun : SchedulingState :=
  schedTwoRooms.generate_schedule_state peopleAML 1 4 [] []

/-- Five rooms with the CV group enabled: grouping activates for 3 people
but produces 4 units, so it must abort. -/
def schedFiveRoomsGrouping : CleaningScheduler :=
  { rooms := ["Bagno", "Cucina", "Veranda", "Corridoio", "Salotto"],
    room_groups_config := cfgGroupCV }

/-- Three people with fresh week-1 records over the five-room
configuration and an empty ledger (the state in which a week run
starts). -/
def stateWeekOneReady : SchedulingState :=
  { people := setupWeeklyData 1 1 7 (initPersonObjects schedFiveRoomsGrouping peopleAML []),
    rooms := schedFiveRoomsGrouping.rooms, assignments := [] }

/-- Two people with fresh week-1 records over the four-room configuration
and an empty ledger. -/
def stateTwoPeopleWeek1 : SchedulingState :=
  { people := setupWeeklyData 1 1 7 (initPersonObjects schedFourRooms ["Anna", "Marco"] []),
    rooms := schedFourRooms.rooms, assignments := [] }

/-- `stateTwoPeopleWeek1` after one committed week-1 assignment (Anna
holds R2 on day 1). -/
def stateOneCommitted : SchedulingState :=
  stateTwoPeopleWeek1.add_assignment
    { room := "R2", person := "Anna", assignment_date := 1, week_number := 1 }

/-- A state whose two people carry different historical loads (0 and 5);
used to show the balanced targets ignore the loads when the room count
divides the people count. -/
def stateUnevenLoads : SchedulingState :=
  { people := [{ name := "Anna" }, { name := "Marco", total_assignments := 5 }],
    rooms := ["R1", "R2", "R3", "R4"], assignments := [] }

/-! ## Theorems

### Calendar partitioner (claim C5) -/

theorem daysInMonth_pos (y m : Nat) : 1 ≤ daysInMonth y m := by
  unfold daysInMonth
  split
  · split <;> omega
  · split <;> omega

theorem monthWeeksLoop_mem (last : Nat) :
    ∀ (fuel start : Nat), ∀ w ∈ monthWeeksLoop last fuel start,
      w.2 = w.1 + 6 ∧ start ≤ w.1 ∧ w.1 % 7 = start % 7 ∧ w.1 ≤ last := by
  intro fuel
  induction fuel with
  | zero => intro start w hw; simp [monthWeeksLoop] at hw
  | succ n ih =>
      intro start w hw
      simp only [monthWeeksLoop] at hw
      split at hw
      · rcases List.mem_cons.mp hw with h | h
        · subst h
          refine ⟨rfl, Nat.le_refl _, rfl, by omega⟩
        · obtain ⟨h1, h2, h3, h4⟩ := ih (start + 7) w h
          exact ⟨h1, by omega, by omega, h4⟩
      · simp at hw

theorem monthWeeksLoop_headEq (last fuel start : Nat) :
    (monthWeeksLoop last fuel start).head? = none ∨
      (monthWeeksLoop last fuel start).head? = some (start, start + 6) := by
  cases fuel with
  | zero => simp [monthWeeksLoop]
  | succ n =>
      simp only [monthWeeksLoop]
      split
      · right; rfl
      · left; rfl

theorem monthWeeksLoop_chain (last : Nat) :
    ∀ (fuel start : Nat),
      List.Chain' (fun a b : Nat × Nat => b.1 = a.1 + 7) (monthWeeksLoop last fuel start) := by
  intro fuel
  induction fuel with
  | zero => intro start; simp [monthWeeksLoop]
  | succ n ih =>
      intro start
      simp only [monthWeeksLoop]
      split
      · refine List.chain'_cons'.mpr ⟨?_, ih (start + 7)⟩
        intro b hb
        rcases monthWeeksLoop_headEq last n (start + 7) with h | h
        · rw [h] at hb; simp at hb
        · rw [h] at hb; simp at hb; rw [← hb]
      · simp

theorem monthWeeksLoop_pairwise (last : Nat) :
    ∀ (fuel start : Nat),
      List.Pairwise (fun a b : Nat × Nat => a.2 < b.1) (monthWeeksLoop last fuel start) := by
  intro fuel
  induction fuel with
  | zero => intro start; simp [monthWeeksLoop]
  | succ n ih =>
      intro start
      simp only [monthWeeksLoop]
      split
      · refine List.pairwise_cons.mpr ⟨?_, ih (start + 7)⟩
        intro w hw
        obtain ⟨-, h2, -, -⟩ := monthWeeksLoop_mem last n (start + 7) w hw
        omega
      · simp

theorem monthWeeksLoop_cover (last : Nat) :
    ∀ (fuel start d : Nat), start ≤ d → d ≤ last → last + 1 ≤ start + fuel →
      ∃ w ∈ monthWeeksLoop last fuel start, w.1 ≤ d ∧ d ≤ w.2 := by
  intro fuel
  induction fuel with
  | zero => intro start d h1 h2 h3; omega
  | succ n ih =>
      intro start d h1 h2 h3
      have hsl : start ≤ last := Nat.le_trans h1 h2
      simp only [monthWeeksLoop, if_pos hsl]
      by_cases hd : d ≤ start + 6
      · exact ⟨(start, start + 6), List.mem_cons_self _ _, h1, hd⟩
      · obtain ⟨w, hw, hw1, hw2⟩ := ih (start + 7) d (by omega) h2 (by omega)
        exact ⟨w, List.mem_cons_of_mem _ hw, hw1, hw2⟩

theorem toOrdinal_pos (y m : Nat) : 1 ≤ toOrdinal y m 1 := by
  unfold toOrdinal
  omega

/-- C5 (confirmed): for every valid `(year, month)` the calendar
partitioner returns Monday-aligned 7-day windows, consecutive (each start
is the previous start plus 7), pairwise disjoint and chronologically
ordered (each window ends before the next begins), whose union covers
every day of the month. -/
theorem claim_C5_calendar_partitioner (year month : Nat)
    (hy : 1 ≤ year) (hm1 : 1 ≤ month) (hm2 : month ≤ 12) :
    (∀ w ∈ getMonthWeeks year month, w.2 = w.1 + 6 ∧ pyWeekday w.1 = 0) ∧
    List.Chain' (fun a b : Nat × Nat => b.1 = a.1 + 7) (getMonthWeeks year month) ∧
    List.Pairwise (fun a b : Nat × Nat => a.2 < b.1) (getMonthWeeks year month) ∧
    (∀ d, toOrdinal year month 1 ≤ d →
        d + 1 ≤ toOrdinal year month 1 + daysInMonth year month →
        ∃ w ∈ getMonthWeeks year month, w.1 ≤ d ∧ d ≤ w.2) := by
  have hfirst : 1 ≤ toOrdinal year month 1 := toOrdinal_pos year month
  have hdim : 1 ≤ daysInMonth year month := daysInMonth_pos year month
  simp only [getMonthWeeks]
  set first := toOrdinal year month 1 with hfirstdef
  set last := first + daysInMonth year month - 1 with hlastdef
  set ws := first - pyWeekday first with hwsdef
  have hws7 : (ws + 6) % 7 = 0 := by
    have h1 : pyWeekday first = (first + 6) % 7 := rfl
    omega
  refine ⟨?_, ?_, ?_, ?_⟩
  · intro w hw
    obtain ⟨h1, -, h3, -⟩ := monthWeeksLoop_mem last (last + 1 - ws) ws w hw
    refine ⟨h1, ?_⟩
    show (w.1 + 6) % 7 = 0
    omega
  · exact monthWeeksLoop_chain last (last + 1 - ws) ws
  · exact monthWeeksLoop_pairwise last (last + 1 - ws) ws
  · intro d hd1 hd2
    have hwsle : ws ≤ first := Nat.sub_le _ _
    exact monthWeeksLoop_cover last (last + 1 - ws) ws d (by omega) (by omega) (by omega)

/-- C5 witness: the September 2025 partition is pairwise disjoint,
ordered, and consecutive. -/
theorem claim_C5_witness :
    List.Pairwise (fun a b : Nat × Nat => a.2 < b.1) (getMonthWeeks 2025 9) ∧
    List.Chain' (fun a b : Nat × Nat => b.1 = a.1 + 7) (getMonthWeeks 2025 9) :=
  ⟨(claim_C5_calendar_partitioner 2025 9 (by decide) (by decide) (by decide)).2.2.1,
   (claim_C5_calendar_partitioner 2025 9 (by decide) (by decide) (by decide)).2.1⟩

/-! ### Balanced targets (claim C6) -/

theorem calcTargetsGo_extra_zero (st : SchedulingState) (mn mx base : Nat) :
    ∀ (names : List String) (i : Nat),
      calcTargetsGo st mn mx base names i 0 = names.map (fun n => (n, max 0 base)) := by
  intro names
  induction names with
  | nil => intro i; rfl
  | cons n rest ih =>
      intro i
      simp only [calcTargetsGo, List.map_cons]
      by_cases h : mn < mx
      · simp [h, ih]
      · simp [h, ih]

/-- C6 (confirmed): when everybody participates and the number of rooms is
divisible by the number of participants, every per-week target equals
`num_rooms / num_participants`, regardless of the participants' current
total loads (which enter the function only through `minList`/`maxList`
and the per-person bonus branches, all of which are inert when the
remainder is zero). -/
theorem claim_C6_balanced_targets (st : SchedulingState) (available_people : List String)
    (num_rooms : Nat) (hne : available_people ≠ [])
    (hdvd : available_people.length ∣ num_rooms) :
    ∀ pr ∈ calculate_balanced_targets st available_people num_rooms,
      pr.2 = num_rooms / available_people.length := by
  intro pr hpr
  cases available_people with
  | nil => exact absurd rfl hne
  | cons a rest =>
      obtain ⟨k, hk⟩ := hdvd
      have hmod : num_rooms % (a :: rest).length = 0 := by
        rw [hk]; exact Nat.mul_mod_right _ _
      have hunf : calculate_balanced_targets st (a :: rest) num_rooms
          = calcTargetsGo st
              (minList ((a :: rest).map (fun n => (st.person n).total_assignments)))
              (maxList ((a :: rest).map (fun n => (st.person n).total_assignments)))
              (num_rooms / (a :: rest).length) (a :: rest) 0
              (num_rooms % (a :: rest).length) := rfl
      rw [hunf, hmod, calcTargetsGo_extra_zero] at hpr
      obtain ⟨n, -, hn⟩ := List.mem_map.mp hpr
      rw [← hn]
      simp

/-- C6 witness: with two participants whose accumulated loads are 0 and 5
and four rooms, Anna's target is `4 / 2`. -/
theorem claim_C6_witness : (("Anna", 2) : String × Nat).2 = 4 / 2 :=
  claim_C6_balanced_targets stateUnevenLoads ["Anna", "Marco"] 4 (by decide) (by decide)
    ("Anna", 2) (by decide)

/-! ### Determinism (claim C9) -/

/-- C9 (confirmed): the engine is deterministic.  The scorer's candidate
ranking is a pure function of the `SchedulingState` snapshot, so equal
snapshots rank candidates identically, and `generate_schedule` is a pure
function of its inputs, so two runs on equal inputs return equal outputs;
no randomness enters any scoring or selection step (the embedding of
`scheduler.py` is a total function with no random source). -/
theorem claim_C9_deterministic (st1 st2 : SchedulingState) (room : String)
    (available_people : List String) (week_number : Nat)
    (excluded_first_week : List (String × List String)) (assignment_date : Nat)
    (sched : CleaningScheduler) (people : List String) (year month : Nat)
    (absences : List (String × List (Nat × Nat))) (h : st1 = st2) :
    rankCandidatesForRoom st1 room available_people week_number excluded_first_week
        assignment_date
      = rankCandidatesForRoom st2 room available_people week_number excluded_first_week
        assignment_date ∧
    sched.generate_schedule people year month absences excluded_first_week
      = sched.generate_schedule people year month absences excluded_first_week := by
  subst h
  exact ⟨rfl, rfl⟩

/-- C9 witness: ranking a concrete snapshot twice and running a concrete
schedule twice give identical results. -/
theorem claim_C9_witness :
    rankCandidatesForRoom stateOneCommitted "R1" ["Anna", "Marco"] 1 [] 1
      = rankCandidatesForRoom stateOneCommitted "R1" ["Anna", "Marco"] 1 [] 1 ∧
    schedOneRoom.generate_schedule ["Anna", "Marco"] 1 1 [] []
      = schedOneRoom.generate_schedule ["Anna", "Marco"] 1 1 [] [] :=
  claim_C9_deterministic stateOneCommitted stateOneCommitted "R1" ["Anna", "Marco"] 1 [] 1
    schedOneRoom ["Anna", "Marco"] 1 1 [] rfl

/-! ### Grouping scenario (claim C3) -/

/-- C3 (confirmed): with exactly 3 participants, grouping enabled, the one
group {Cucina, Veranda} and rooms [Bagno, Cucina, Veranda, Corridoio],
exactly 3 units are computed (the group CV plus Bagno plus Corridoio) and
in each of the 5 weeks of the run Cucina and Veranda go to the same
person on the same date, with both records flagged as grouped and tagged
with the group name. -/
theorem claim_C3_grouping_scenario :
    (buildAssignmentUnits schedGrouping).length = 3 ∧
    (buildAssignmentUnits schedGrouping).map (fun u => u.name) = ["CV", "Bagno", "Corridoio"] ∧
    ∀ w ∈ [1, 2, 3, 4, 5],
      (∃ c ∈ stateGroupingRun.assignments, ∃ v ∈ stateGroupingRun.assignments,
        c.week_number = w ∧ c.room = "Cucina" ∧ v.week_number = w ∧ v.room = "Veranda" ∧
        c.person = v.person ∧ c.assignment_date = v.assignment_date ∧
        c.is_grouped = true ∧ v.is_grouped = true ∧
        c.group_name = some "CV" ∧ v.group_name = some "CV") ∧
      (∀ c ∈ stateGroupingRun.assignments, c.week_number = w → c.room = "Cucina" →
        ∀ v ∈ stateGroupingRun.assignments, v.week_number = w → v.room = "Veranda" →
        c.person = v.person ∧ c.assignment_date = v.assignment_date) := by
  decide

/-! ### Silent omission of unfillable rooms (claim C2) -/

/-- C2 (code_bug): in the single-day run, room R4 has zero eligible
(person, date) pairs in week 1 in both passes (both people already hold
an assignment on the only available day), yet the schedule returned to
the caller contains no record at all for R4 - the week-1 output consists
of exactly the three other rooms and R4 is silently omitted, with no
"unassigned" marker anywhere. -/
theorem claim_C2_unassigned_room_dropped :
    "R4" ∈ schedFourRooms.rooms ∧
    (rowsSingleDayRun.filter (fun r => r.settimana == 1)).length = 3 ∧
    (∀ r ∈ rowsSingleDayRun, ¬ r.stanza = "R4") := by
  decide

/-! ### Fairness spread (claim C8) -/

/-- C8 (code_bug): April of year 1 has 6 ≥ 4 week windows, all three
participants are available on every day, there are no exclusions, yet the
run ends with Anna at 5 total assignments and Marco at 3 - a spread of 2,
violating the spread ≤ 1 property. -/
theorem claim_C8_fairness_violated :
    4 ≤ (getMonthWeeks 1 4).length ∧
    (stateFairnessRun.person "Anna").total_assignments = 5 ∧
    (stateFairnessRun.person "Marco").total_assignments = 3 := by
  decide

/-! ### Per-person date uniqueness (claim C1): counterexample -/

/-- C1 counterexample: in the single-day run (no grouping involved), the
week-1 greedy pass commits both R1 and R3 to Anna on date 1 inside one
date-iteration, so the final ledger gives Anna two week-1 assignments
with the same calendar date. -/
theorem claim_C1_counterexample :
    ¬ NoDupPersonDate stateSingleDayRun 1 ∧
    2 ≤ (stateSingleDayRun.assignments.filter
      (fun a => a.person == "Anna" && a.assignment_date == 1 && a.week_number == 1)).length := by
  decide

/-! ### Week-1 exclusions (claim C7): counterexample -/

/-- C7 counterexample: Bagno is excluded for both people in week 1, the
greedy pass therefore finds no candidate, but the fallback pass (which
never consults `excluded_first_week`) assigns Bagno to Anna in week 1. -/
theorem claim_C7_counterexample :
    dictGet? "Anna" exclBagnoBoth = some ["Bagno"] ∧
    ∃ a ∈ stateExclRun.assignments,
      a.week_number = 1 ∧ a.room = "Bagno" ∧ a.person = "Anna" := by
  decide

/-! ### Grouping abort refines to the ungrouped algorithm (claim C4) -/

/-- C4 (confirmed): whenever the grouping extension activates (exactly 3
participants, grouping enabled, at least one valid group) but the number
of computed units differs from 3, the weekly run equals, state for state
and hence record for record, the ordinary ungrouped weekly algorithm run
from the same state on the identically computed chronological dates. -/
theorem claim_C4_grouping_abort_equiv (sched : CleaningScheduler)
    (available_people : List String) (week_number : Nat)
    (excluded_first_week : List (String × List String)) (st : SchedulingState)
    (hlen : available_people.length = 3) (hen : sched.room_groups_config.abilitato = true)
    (hgr : 0 < sched.room_groups.length)
    (hunits : (buildAssignmentUnits sched).length ≠ 3) :
    assign_week_with_objects sched available_people week_number excluded_first_week st
      = assign_week_normal_logic sched available_people week_number excluded_first_week st
          (computeChronologicalDates st available_people week_number) := by
  simp only [assign_week_with_objects, assign_week_with_grouping]
  rw [if_pos ⟨hlen, hen, hgr⟩, if_pos hunits]

/-- C4 witness: with 5 rooms and the CV group, grouping activates for the
3 participants but builds 4 units, and the week-1 run equals the
ungrouped run. -/
theorem claim_C4_witness :
    assign_week_with_objects schedFiveRoomsGrouping peopleAML 1 [] stateWeekOneReady
      = assign_week_normal_logic schedFiveRoomsGrouping peopleAML 1 [] stateWeekOneReady
          (computeChronologicalDates stateWeekOneReady peopleAML 1) :=
  claim_C4_grouping_abort_equiv schedFiveRoomsGrouping peopleAML 1 [] stateWeekOneReady
    (by decide) (by decide) (by decide) (by decide)

/-! ### Week-1 exclusions: the amended claim (claim C7) -/

theorem mem_insertScoreDesc {α : Type} (key : α → Int) (x y : α) (l : List α) :
    y ∈ insertScoreDesc key x l ↔ y = x ∨ y ∈ l := by
  induction l with
  | nil => simp [insertScoreDesc]
  | cons z zs ih =>
      simp only [insertScoreDesc]
      split
      · simp [List.mem_cons]
      · simp only [List.mem_cons, ih]
        tauto

theorem mem_sortScoreDesc {α : Type} (key : α → Int) (y : α) (l : List α) :
    y ∈ sortScoreDesc key l ↔ y ∈ l := by
  induction l with
  | nil => simp [sortScoreDesc]
  | cons z zs ih => simp [sortScoreDesc, mem_insertScoreDesc, ih]

/-- C7 (corrected, amended): week-1 exclusions bind only the greedy pass's
person selection.  (a) Whenever `_find_best_person_for_room` picks a
person in week 1, the room is not among that person's excluded rooms -
so the chronological greedy pass never commits an excluded room.
(b) In any week other than week 1 the selection is identical to the one
with an empty exclusion map, so exclusions have no effect after week 1.
(The fallback pass, which never consults the exclusion map, can violate
the exclusions - see the counterexample.) -/
theorem claim_C7_exclusions_greedy_only (st : SchedulingState) (room : String)
    (available_people : List String) (week_number : Nat)
    (excluded_first_week : List (String × List String)) (assignment_date : Nat)
    (p : String) (ex : List String) :
    (find_best_person_for_room st room available_people 1 excluded_first_week
        assignment_date = some p →
      dictGet? p excluded_first_week = some ex → ¬ room ∈ ex) ∧
    (week_number ≠ 1 →
      find_best_person_for_room st room available_people week_number excluded_first_week
          assignment_date
        = find_best_person_for_room st room available_people week_number [] assignment_date) := by
  constructor
  · intro hfind hex hroom
    unfold find_best_person_for_room at hfind
    cases hm : rankCandidatesForRoom st room available_people 1 excluded_first_week
        assignment_date with
    | nil => rw [hm] at hfind; simp at hfind
    | cons c t =>
        rw [hm] at hfind
        have hcp : c.2 = p := by simpa using hfind
        have hc : c ∈ rankCandidatesForRoom st room available_people 1 excluded_first_week
            assignment_date := by
          rw [hm]; exact List.mem_cons_self _ _
        unfold rankCandidatesForRoom at hc
        rw [mem_sortScoreDesc] at hc
        obtain ⟨n, -, hn⟩ := List.mem_filterMap.mp hc
        by_cases hcond : (1 = 1 ∧
            (match dictGet? n excluded_first_week with
             | some exn => exn.contains room
             | none => false) = true)
        · rw [if_pos hcond] at hn
          exact absurd hn (by simp)
        · rw [if_neg hcond] at hn
          have hnp : n = p := by
            have h2 := congrArg (fun o => Option.map Prod.snd o) hn
            simpa [hcp] using h2
          subst hnp
          rw [hex] at hcond
          exact hcond ⟨rfl, by simpa [List.elem_iff] using hroom⟩
  · intro hw
    unfold find_best_person_for_room rankCandidatesForRoom
    have hfm : available_people.filterMap (fun n =>
        if week_number = 1 ∧
            (match dictGet? n excluded_first_week with
             | some exn => exn.contains room
             | none => false) = true then
          none
        else
          some (calculate_person_room_score_with_context st n room assignment_date
            available_people, n))
      = available_people.filterMap (fun n =>
        if week_number = 1 ∧
            (match dictGet? n ([] : List (String × List String)) with
             | some exn => exn.contains room
             | none => false) = true then
          none
        else
          some (calculate_person_room_score_with_context st n room assignment_date
            available_people, n)) := by
      apply List.filterMap_congr
      intro n _
      rw [if_neg (fun hc => hw hc.1), if_neg (fun hc => hw hc.1)]
    rw [hfm]

/-- C7 witness: in week 1, the person selected for R1 while Marco is
excluded from R2 does not have R1 among their exclusions; and in week 2
the selection with the exclusion map equals the one without it. -/
theorem claim_C7_witness :
    (¬ "R1" ∈ (["R2"] : List String)) ∧
    find_best_person_for_room stateOneCommitted "R1" ["Anna", "Marco"] 2
        [("Marco", ["R2"])] 1
      = find_best_person_for_room stateOneCommitted "R1" ["Anna", "Marco"] 2 [] 1 :=
  ⟨(claim_C7_exclusions_greedy_only stateOneCommitted "R1" ["Anna", "Marco"] 1
      [("Marco", ["R2"])] 1 "Marco" ["R2"]).1 (by decide) (by decide),
   (claim_C7_exclusions_greedy_only stateOneCommitted "R1" ["Anna", "Marco"] 2
      [("Marco", ["R2"])] 1 "Marco" ["R2"]).2 (by decide)⟩

/-! ### Infrastructure: how `add_assignment` transforms the state -/

theorem dictGet?_dictSet_self {α β : Type} [DecidableEq α] (k : α) (v : β)
    (l : List (α × β)) : dictGet? k (dictSet k v l) = some v := by
  induction l with
  | nil => simp [dictSet, dictGet?]
  | cons ab rest ih =>
      obtain ⟨a, b⟩ := ab
      by_cases h : a = k
      · simp [dictSet, dictGet?, h]
      · simp [dictSet, dictGet?, h, ih]

theorem dictGet?_dictSet_ne {α β : Type} [DecidableEq α] (k k2 : α) (v : β)
    (l : List (α × β)) (h : k2 ≠ k) : dictGet? k2 (dictSet k v l) = dictGet? k2 l := by
  have hk : ¬(k = k2) := fun he => h he.symm
  induction l with
  | nil => simp [dictSet, dictGet?, hk]
  | cons ab rest ih =>
      obtain ⟨a, b⟩ := ab
      simp only [dictSet]
      by_cases ha : a = k
      · subst ha
        simp [dictGet?, hk]
      · rw [if_neg ha]
        simp only [dictGet?]
        by_cases ha2 : a = k2
        · rw [if_pos ha2, if_pos ha2]
        · rw [if_neg ha2, if_neg ha2]
          exact ih

theorem dictGet?_mem {α β : Type} [DecidableEq α] (k : α) (v : β) (l : List (α × β))
    (h : dictGet? k l = some v) : (k, v) ∈ l := by
  induction l with
  | nil => simp [dictGet?] at h
  | cons ab rest ih =>
      obtain ⟨a, b⟩ := ab
      by_cases ha : a = k
      · subst ha
        simp [dictGet?] at h
        simp [h]
      · simp [dictGet?, ha] at h
        exact List.mem_cons_of_mem _ (ih h)

theorem applyAssignment_name (p : Person) (a : RoomAssignment) :
    (p.applyAssignment a).name = p.name := by
  unfold Person.applyAssignment
  cases hm : p.get_weekly_assignment a.week_number <;> simp

theorem add_assignment_assignments (st : SchedulingState) (a : RoomAssignment) :
    (st.add_assignment a).assignments = st.assignments ++ [a] := rfl

theorem weekAssignments_add (st : SchedulingState) (a : RoomAssignment) (w : Nat) :
    weekAssignments (st.add_assignment a) w
      = weekAssignments st w ++ if a.week_number = w then [a] else [] := by
  by_cases h : a.week_number = w <;>
    simp [weekAssignments, add_assignment_assignments, List.filter_append, h]

theorem find?_name_map (f : Person → Person) (hf : ∀ q, (f q).name = q.name) (n : String) :
    ∀ l : List Person,
      (l.map f).find? (fun q => q.name == n) = (l.find? (fun q => q.name == n)).map f := by
  intro l
  induction l with
  | nil => rfl
  | cons q rest ih =>
      simp only [List.map_cons, List.find?_cons]
      rw [hf q]
      by_cases h : q.name == n
      · simp [h]
      · simp only [h]
        simpa [h] using ih

theorem person_add_ne (st : SchedulingState) (a : RoomAssignment) (n : String)
    (h : n ≠ a.person) : (st.add_assignment a).person n = st.person n := by
  unfold SchedulingState.person SchedulingState.add_assignment
  rw [find?_name_map _ (fun q => by by_cases hq : q.name == a.person <;> simp [hq, applyAssignment_name])]
  cases hm : st.people.find? (fun q => q.name == n) with
  | none => rfl
  | some q =>
      have hqn : q.name = n := by
        have := List.find?_some hm
        simpa using this
      simp [Option.map, hqn, h]

theorem person_add_self (st : SchedulingState) (a : RoomAssignment)
    (h : (st.people.find? (fun q => q.name == a.person)).isSome = true) :
    (st.add_assignment a).person a.person = (st.person a.person).applyAssignment a := by
  unfold SchedulingState.person SchedulingState.add_assignment
  rw [find?_name_map _ (fun q => by by_cases hq : q.name == a.person <;> simp [hq, applyAssignment_name])]
  cases hm : st.people.find? (fun q => q.name == a.person) with
  | none => rw [hm] at h; simp at h
  | some q =>
      have hqn : q.name = a.person := by
        have := List.find?_some hm
        simpa using this
      simp [Option.map, hqn]

theorem person_get_weekly_isSome_find (st : SchedulingState) (n : String) (w : Nat)
    (h : ((st.person n).get_weekly_assignment w).isSome = true) :
    (st.people.find? (fun q => q.name == n)).isSome = true := by
  cases hm : st.people.find? (fun q => q.name == n) with
  | some q => rfl
  | none =>
      have hdef : st.person n = { name := "" } := by
        unfold SchedulingState.person
        rw [hm]
        rfl
      rw [hdef] at h
      simp [Person.get_weekly_assignment, dictGet?] at h

theorem applyAssignment_get_weekly_eq (p : Person) (a : RoomAssignment)
    (weekly : WeeklyAssignment) (h : p.get_weekly_assignment a.week_number = some weekly) :
    (p.applyAssignment a).get_weekly_assignment a.week_number
      = some (weekly.add_assignment a.room a.assignment_date) := by
  unfold Person.applyAssignment
  rw [h]
  show dictGet? a.week_number (dictSet a.week_number _ p.weekly_data) = _
  rw [dictGet?_dictSet_self]

theorem applyAssignment_get_weekly_ne (p : Person) (a : RoomAssignment) (w : Nat)
    (h : w ≠ a.week_number) :
    (p.applyAssignment a).get_weekly_assignment w = p.get_weekly_assignment w := by
  unfold Person.applyAssignment
  cases hm : p.get_weekly_assignment a.week_number
  · simp [Person.get_weekly_assignment]
  · show dictGet? w (dictSet a.week_number _ p.weekly_data) = dictGet? w p.weekly_data
    exact dictGet?_dictSet_ne _ _ _ _ h

theorem has_used_of_binding (st : SchedulingState) (n : String) (w : Nat) (room : String)
    (d : Nat) (h : recordBinding st n w room = some d) :
    (st.person n).has_used_day_in_week d w = true := by
  unfold recordBinding at h
  unfold Person.has_used_day_in_week
  cases hm : (st.person n).get_weekly_assignment w with
  | none => rw [hm] at h; cases h
  | some weekly =>
      rw [hm] at h
      have hmem : (room, d) ∈ weekly.assignments := dictGet?_mem _ _ _ h
      have : d ∈ weekly.get_assigned_dates := by
        unfold WeeklyAssignment.get_assigned_dates
        exact List.mem_map.mpr ⟨(room, d), hmem, rfl⟩
      simpa [List.elem_iff] using this

/-! ### Per-person date uniqueness of the fallback pass (claim C1, amended) -/

theorem recordBinding_congr (st1 st2 : SchedulingState) (n : String) (w : Nat) (r : String)
    (h : st1.person n = st2.person n) : recordBinding st1 n w r = recordBinding st2 n w r := by
  unfold recordBinding
  rw [h]

theorem fallbackScanDates_some (st : SchedulingState) (w : Nat) (room : String)
    (names : List String) (person : String) (hp : person ∈ names) :
    ∀ (dates : List Nat) (acc : Int × Option (String × Nat)),
      (∀ pd, acc.2 = some pd → pd.1 ∈ names ∧
        (st.person pd.1).is_available_on_date pd.2 = true ∧
        (st.person pd.1).has_used_day_in_week pd.2 w = false) →
      ∀ pd, (fallbackScanDates st w room names person dates acc).2 = some pd →
        pd.1 ∈ names ∧ (st.person pd.1).is_available_on_date pd.2 = true ∧
        (st.person pd.1).has_used_day_in_week pd.2 w = false := by
  intro dates
  induction dates with
  | nil => intro acc hacc pd h; exact hacc pd h
  | cons d rest ih =>
      intro acc hacc pd h
      simp only [fallbackScanDates] at h
      split at h
      case isTrue hcond =>
        have hc : (st.person person).is_available_on_date d = true ∧
            (st.person person).has_used_day_in_week d w = false := by
          simpa [Bool.and_eq_true, Bool.not_eq_true'] using hcond
        split at h
        case isTrue =>
          refine ih _ ?_ pd h
          intro pd2 h2
          have hpd2 : pd2 = (person, d) := by simpa using h2.symm
          subst hpd2
          exact ⟨hp, hc.1, hc.2⟩
        case isFalse => exact ih _ hacc pd h
      case isFalse => exact ih _ hacc pd h

theorem fallbackScanPeople_some (st : SchedulingState) (w : Nat) (room : String)
    (names : List String) (dates : List Nat) :
    ∀ (ps : List String) (acc : Int × Option (String × Nat)),
      (∀ q ∈ ps, q ∈ names) →
      (∀ pd, acc.2 = some pd → pd.1 ∈ names ∧
        (st.person pd.1).is_available_on_date pd.2 = true ∧
        (st.person pd.1).has_used_day_in_week pd.2 w = false) →
      ∀ pd, (fallbackScanPeople st w room names dates ps acc).2 = some pd →
        pd.1 ∈ names ∧ (st.person pd.1).is_available_on_date pd.2 = true ∧
        (st.person pd.1).has_used_day_in_week pd.2 w = false := by
  intro ps
  induction ps with
  | nil => intro acc _ hacc pd h; exact hacc pd h
  | cons q rest ih =>
      intro acc hsub hacc pd h
      simp only [fallbackScanPeople] at h
      refine ih _ (fun q2 hq2 => hsub q2 (List.mem_cons_of_mem _ hq2)) ?_ pd h
      exact fallbackScanDates_some st w room names q (hsub q (List.mem_cons_self _ _))
        dates acc hacc

theorem fallbackBestPair_some (st : SchedulingState) (w : Nat) (room : String)
    (names : List String) (dates : List Nat) (pd : String × Nat)
    (h : fallbackBestPair st w room names dates = some pd) :
    pd.1 ∈ names ∧ (st.person pd.1).is_available_on_date pd.2 = true ∧
      (st.person pd.1).has_used_day_in_week pd.2 w = false := by
  refine fallbackScanPeople_some st w room names dates names (-1, none)
    (fun q hq => hq) ?_ pd h
  intro pd2 h2
  cases h2

/-- C1 (corrected, amended): the original invariant fails (the greedy pass
can give a person several rooms on one date within a single
date-iteration, and a grouped unit shares one date by design - see the
counterexample), but the fallback pass preserves per-person date
uniqueness: starting from any state whose week-`w` ledger is backed by
the weekly records (`RecordConsistent`), whose listed people have weekly
records (`RecordsExist`), whose week-`w` ledger has no duplicate
(person, date) pair, and whose pending rooms are distinct and not yet
assigned this week, the state after `_assign_remaining_rooms_fallback`
still has no person with two week-`w` assignments on the same date. -/
theorem claim_C1_fallback_date_unique (names : List String) (dates : List Nat) (w : Nat) :
    ∀ (remaining : List String) (st : SchedulingState),
      remaining.Nodup →
      RecordConsistent st w → RecordsExist st w names → NoDupPersonDate st w →
      (∀ b ∈ weekAssignments st w, b.room ∉ remaining) →
      NoDupPersonDate (assign_remaining_rooms_fallback w names dates remaining st) w := by
  intro remaining
  induction remaining with
  | nil =>
      intro st _ _ _ hnd _
      simpa [assign_remaining_rooms_fallback] using hnd
  | cons room rest ih =>
      intro st hnodup hrc hre hnd hfresh
      simp only [assign_remaining_rooms_fallback]
      cases hbp : fallbackBestPair st w room names dates with
      | none =>
          exact ih st (List.nodup_cons.mp hnodup).2 hrc hre hnd
            (fun b hb => fun hmem => hfresh b hb (List.mem_cons_of_mem _ hmem))
      | some pd =>
          obtain ⟨hmem, havail, hused⟩ := fallbackBestPair_some st w room names dates pd hbp
          have hex : ((st.person pd.1).get_weekly_assignment w).isSome = true := hre pd.1 hmem
          obtain ⟨weekly, hweekly⟩ := Option.isSome_iff_exists.mp hex
          have hfind := person_get_weekly_isSome_find st pd.1 w hex
          set a : RoomAssignment := ⟨room, pd.1, pd.2, w, false, none⟩ with ha
          have hself : (st.add_assignment a).person pd.1
              = (st.person pd.1).applyAssignment a := person_add_self st a hfind
          have hweekAdd : weekAssignments (st.add_assignment a) w
              = weekAssignments st w ++ [a] := by
            rw [weekAssignments_add]
            simp
          refine ih _ (List.nodup_cons.mp hnodup).2 ?_ ?_ ?_ ?_
          · -- RecordConsistent
            intro b hb
            rw [hweekAdd] at hb
            rcases List.mem_append.mp hb with hbold | hbnew
            · have hbroom : b.room ∉ room :: rest := hfresh b hbold
              have hbr : b.room ≠ room := fun he => hbroom (he ▸ List.mem_cons_self _ _)
              by_cases hbperson : b.person = pd.1
              · unfold recordBinding
                rw [hbperson, hself,
                  applyAssignment_get_weekly_eq (st.person pd.1) a weekly hweekly]
                show dictGet? b.room (dictSet room pd.2 weekly.assignments) = _
                rw [dictGet?_dictSet_ne _ _ _ _ hbr]
                have h4 := hrc b hbold
                unfold recordBinding at h4
                rw [hbperson, hweekly] at h4
                exact h4
              · rw [recordBinding_congr _ st b.person w b.room (person_add_ne st a _ hbperson)]
                exact hrc b hbold
            · have hbeq : b = a := by simpa using hbnew
              subst hbeq
              unfold recordBinding
              rw [hself, applyAssignment_get_weekly_eq (st.person pd.1) a weekly hweekly]
              show dictGet? room (dictSet room pd.2 weekly.assignments) = _
              rw [dictGet?_dictSet_self]
          · -- RecordsExist
            intro n hn
            by_cases hnp : n = pd.1
            · rw [hnp, hself, applyAssignment_get_weekly_eq (st.person pd.1) a weekly hweekly]
              rfl
            · rw [person_add_ne st a _ hnp]
              exact hre n hn
          · -- NoDupPersonDate
            unfold NoDupPersonDate
            rw [hweekAdd]
            rw [List.pairwise_append]
            refine ⟨hnd, List.pairwise_singleton _ _, ?_⟩
            intro b hbold c hcnew
            have hceq : c = a := by simpa using hcnew
            subst hceq
            rintro ⟨hbp2, hbd⟩
            have h4 := has_used_of_binding st b.person w b.room b.assignment_date (hrc b hbold)
            rw [hbp2, hbd] at h4
            rw [h4] at hused
            cases hused
          · -- rooms fresh
            intro b hb
            rw [hweekAdd] at hb
            rcases List.mem_append.mp hb with hbold | hbnew
            · exact fun hmem2 => hfresh b hbold (List.mem_cons_of_mem _ hmem2)
            · have hbeq : b = a := by simpa using hbnew
              subst hbeq
              exact (List.nodup_cons.mp hnodup).1

/-- C1 witness: applying the fallback theorem to a concrete consistent
state (Anna already holds R2 on day 1 of week 1) and the pending room R1
yields a ledger with no person/date duplicate. -/
theorem claim_C1_witness :
    NoDupPersonDate (assign_remaining_rooms_fallback 1 ["Anna", "Marco"]
      [1, 2, 3, 4, 5, 6, 7] ["R1"] stateOneCommitted) 1 :=
  claim_C1_fallback_date_unique ["Anna", "Marco"] [1, 2, 3, 4, 5, 6, 7] 1 ["R1"]
    stateOneCommitted (by decide) (by decide) (by decide) (by decide) (by decide)

/-! ### One assignment per room per week in the ungrouped engine (claim C10) -/

theorem greedyRoomsLoop_rooms (w : Nat) (excl : List (String × List String))
    (cd maxt : Nat) (targets : List (String × Nat)) :
    ∀ (prs : List String) (st : SchedulingState) (ra : List String)
      (counts : List (String × Nat)) (avail : List String) (made : Nat),
      NoDupRooms st w → (∀ b ∈ weekAssignments st w, b.room ∈ ra) →
      NoDupRooms (greedyRoomsLoop w excl cd maxt targets prs st ra counts avail made).1 w ∧
      ∀ b ∈ weekAssignments
          (greedyRoomsLoop w excl cd maxt targets prs st ra counts avail made).1 w,
        b.room ∈ (greedyRoomsLoop w excl cd maxt targets prs st ra counts avail made).2.1 := by
  intro prs
  induction prs with
  | nil => intro st ra counts avail made h1 h2; exact ⟨h1, h2⟩
  | cons room rest ih =>
      intro st ra counts avail made h1 h2
      simp only [greedyRoomsLoop]
      split
      · exact ⟨h1, h2⟩
      · split
        · exact ih st ra counts avail made h1 h2
        · split
          · exact ih st ra counts avail made h1 h2
          · rename_i hnotassigned _ best _
            have hroomnotin : room ∉ ra := by
              simpa [List.elem_iff] using hnotassigned
            set a : RoomAssignment := ⟨room, best, cd, w, false, none⟩ with ha
            have hweekAdd : weekAssignments (st.add_assignment a) w
                = weekAssignments st w ++ [a] := by
              rw [weekAssignments_add]
              simp
            apply ih
            · unfold NoDupRooms
              rw [hweekAdd, List.pairwise_append]
              refine ⟨h1, List.pairwise_singleton _ _, ?_⟩
              intro b hbold c hcnew
              have hceq : c = a := by simpa using hcnew
              subst hceq
              intro he
              have hbra := h2 b hbold
              rw [he] at hbra
              exact hroomnotin hbra
            · intro b hb
              rw [hweekAdd] at hb
              rcases List.mem_append.mp hb with hbold | hbnew
              · exact List.mem_append_left _ (h2 b hbold)
              · have hbeq : b = a := by simpa using hbnew
                subst hbeq
                exact List.mem_append_right _ (List.mem_cons_self _ _)

theorem greedyDatesLoop_rooms (sched_rooms : List String) (w : Nat)
    (excl : List (String × List String)) (chrono : List Nat)
    (targets : List (String × Nat)) (names : List String) :
    ∀ (ds : List Nat) (st : SchedulingState) (ra : List String)
      (counts : List (String × Nat)),
      NoDupRooms st w → (∀ b ∈ weekAssignments st w, b.room ∈ ra) →
      NoDupRooms (greedyDatesLoop sched_rooms w excl chrono targets names ds st ra counts).1 w ∧
      ∀ b ∈ weekAssignments
          (greedyDatesLoop sched_rooms w excl chrono targets names ds st ra counts).1 w,
        b.room ∈ (greedyDatesLoop sched_rooms w excl chrono targets names ds st ra counts).2 := by
  intro ds
  induction ds with
  | nil => intro st ra counts h1 h2; exact ⟨h1, h2⟩
  | cons d rest ih =>
      intro st ra counts h1 h2
      simp only [greedyDatesLoop]
      split
      · exact ⟨h1, h2⟩
      · split
        · exact ih st ra counts h1 h2
        · obtain ⟨h3, h4⟩ := greedyRoomsLoop_rooms w excl d
            (min 3 (max 1 ((sched_rooms.filter (fun r => ! ra.contains r)).length /
              max 1 ((chrono.filter (fun d2 => d ≤ d2)).length)))) targets
            (prioritize_rooms_for_rotation st (sched_rooms.filter (fun r => ! ra.contains r))
              (names.filter (fun n =>
                ((st.person n).get_weekly_assignment w).isSome &&
                (st.person n).is_available_on_date d &&
                ! (st.person n).has_used_day_in_week d w &&
                decide (dictGetD n counts 0 < dictGetD n targets 0))))
            st ra counts
            (names.filter (fun n =>
              ((st.person n).get_weekly_assignment w).isSome &&
              (st.person n).is_available_on_date d &&
              ! (st.person n).has_used_day_in_week d w &&
              decide (dictGetD n counts 0 < dictGetD n targets 0)))
            0 h1 h2
          exact ih _ _ _ h3 h4

theorem fallback_rooms (w : Nat) (names : List String) (dates : List Nat) :
    ∀ (pending : List String) (st : SchedulingState),
      pending.Nodup → NoDupRooms st w →
      (∀ b ∈ weekAssignments st w, b.room ∉ pending) →
      NoDupRooms (assign_remaining_rooms_fallback w names dates pending st) w := by
  intro pending
  induction pending with
  | nil => intro st _ h1 _; simpa [assign_remaining_rooms_fallback] using h1
  | cons room rest ih =>
      intro st hnodup h1 h2
      simp only [assign_remaining_rooms_fallback]
      cases hbp : fallbackBestPair st w room names dates with
      | none =>
          exact ih st (List.nodup_cons.mp hnodup).2 h1
            (fun b hb hmem => h2 b hb (List.mem_cons_of_mem _ hmem))
      | some pd =>
          set a : RoomAssignment := ⟨room, pd.1, pd.2, w, false, none⟩ with ha
          have hweekAdd : weekAssignments (st.add_assignment a) w
              = weekAssignments st w ++ [a] := by
            rw [weekAssignments_add]
            simp
          apply ih _ (List.nodup_cons.mp hnodup).2
          · unfold NoDupRooms
            rw [hweekAdd, List.pairwise_append]
            refine ⟨h1, List.pairwise_singleton _ _, ?_⟩
            intro b hbold c hcnew
            have hceq : c = a := by simpa using hcnew
            subst hceq
            intro he
            refine h2 b hbold ?_
            rw [he]
            exact List.mem_cons_self _ _
          · intro b hb
            rw [hweekAdd] at hb
            rcases List.mem_append.mp hb with hbold | hbnew
            · exact fun hmem => h2 b hbold (List.mem_cons_of_mem _ hmem)
            · have hbeq : b = a := by simpa using hbnew
              subst hbeq
              exact (List.nodup_cons.mp hnodup).1

theorem normal_logic_rooms (sched : CleaningScheduler) (names : List String) (w : Nat)
    (excl : List (String × List String)) (st : SchedulingState) (dates : List Nat)
    (hrooms : sched.rooms.Nodup) (hw : weekAssignments st w = []) :
    NoDupRooms (assign_week_normal_logic sched names w excl st dates) w := by
  have h0 : NoDupRooms st w := by
    unfold NoDupRooms
    rw [hw]
    exact List.Pairwise.nil
  have h0b : ∀ b ∈ weekAssignments st w, b.room ∈ ([] : List String) := by
    rw [hw]
    simp
  simp only [assign_week_normal_logic]
  obtain ⟨h1, h2⟩ := greedyDatesLoop_rooms sched.rooms w excl dates
    (calculate_balanced_targets st names sched.rooms.length) names dates st []
    (names.map (fun n => (n, 0))) h0 h0b
  split
  · exact h1
  · apply fallback_rooms
    · exact hrooms.filter _
    · exact h1
    · intro b hb hmem
      have hbra := h2 b hb
      have := List.mem_filter.mp hmem
      simp [List.elem_iff] at this
      exact this.2 hbra

/-- C10 (confirmed): in the non-grouping weekly engine, every room
receives at most one assignment per week.  The greedy pass never commits
a room already in `rooms_assigned`, the fallback pass only processes the
distinct rooms the greedy pass left unassigned, and so, starting from a
state with no assignments for the week, the week's slice of the final
ledger names every room at most once. -/
theorem claim_C10_room_unique (sched : CleaningScheduler) (available_people : List String)
    (week_number : Nat) (excluded_first_week : List (String × List String))
    (st : SchedulingState)
    (hng : ¬(available_people.length = 3 ∧ sched.room_groups_config.abilitato = true ∧
      0 < sched.room_groups.length))
    (hrooms : sched.rooms.Nodup)
    (hw : weekAssignments st week_number = []) :
    NoDupRooms (assign_week_with_objects sched available_people week_number
      excluded_first_week st) week_number := by
  simp only [assign_week_with_objects]
  rw [if_neg hng]
  exact normal_logic_rooms sched available_people week_number excluded_first_week st _
    hrooms hw

/-- C10 witness: running an ungrouped week on two fresh people and four
distinct rooms gives a ledger with pairwise distinct rooms. -/
theorem claim_C10_witness :
    NoDupRooms (assign_week_with_objects schedFourRooms ["Anna", "Marco"] 1 []
      stateTwoPeopleWeek1) 1 :=
  claim_C10_room_unique schedFourRooms ["Anna", "Marco"] 1 [] stateTwoPeopleWeek1
    (by decide) (by decide) (by decide)

end SpazzApp
